import Mathlib

/-
Shallow embedding of the MFEKStroke curve-geometry kernel
(src/MFEKmath/bezier/mod.rs and src/qmath/piecewise.rs).

Conventions of the embedding:
* `f64` scalars are modelled by exact rationals `ℚ`; the claims under study are
  algebraic identities ("exact under exact arithmetic") or structural facts, so
  rational arithmetic is the faithful idealisation and keeps every definition
  executable.
* Rust `panic!` / `unwrap` failure is modelled by an `Option` result: `none`
  means the Rust code panics on that input.
* The external crates (skia paths, glifparser points, the vector/rect helper
  module) are modelled at their interface boundary, following the spec where a
  helper's body is not among the provided sources; such definitions carry a
  `Modelled from the spec:` doc comment.
-/

set_option autoImplicit false

namespace MFEKmath

/-- A 2-D point, `Vector {x: f64, y: f64}` of the external vector module,
with equality by exact component comparison. -/
@[ext]
structure Vector where
  x : ℚ
  y : ℚ
  deriving DecidableEq

/-- An axis-aligned rectangle `Rect {left, bottom, right, top}` of the external
rect module. -/
structure Rect where
  left : ℚ
  bottom : ℚ
  right : ℚ
  top : ℚ
  deriving DecidableEq

/-- Modelled from the spec: `Rect::encapsulate_rect` lives in the external rect
module (spec §6): the union of two axis-aligned rectangles (`left`/`bottom` are
lower bounds, `right`/`top` upper bounds, per the seeding signs in
`Piecewise::bounds`). -/
def Rect.encapsulate_rect (r s : Rect) : Rect :=
  { left := min r.left s.left
    bottom := min r.bottom s.bottom
    right := max r.right s.right
    top := max r.top s.top }

/-- A glifparser handle: either an absolute position or colocated with its
owning point (zero length). -/
inductive Handle where
  | At (x y : ℚ)
  | Colocated
  deriving DecidableEq

/-- The glifparser point-type tag; the kernel only distinguishes `Move` from
the rest (spec §6: "{move, other}"). -/
inductive PointType where
  | Move
  | Curve
  | Line
  | OffCurve
  deriving DecidableEq

/-- Selector for a point's two handles: `A` is the outgoing handle, `B` the
incoming one. -/
inductive WhichHandle where
  | A
  | B
  deriving DecidableEq

/-- A glifparser outline point: position, outgoing handle `a`, incoming handle
`b`, and a point-type tag. -/
structure Point where
  x : ℚ
  y : ℚ
  a : Handle
  b : Handle
  ptype : PointType
  deriving DecidableEq

/-- Modelled from the spec: `Vector::from_point` of the external vector module
reads a point's position. -/
def Vector.from_point (point : Point) : Vector :=
  { x := point.x, y := point.y }

/-- Modelled from the spec: `Vector::from_handle` of the external vector module
resolves a point's handle to an absolute control point; a colocated handle
resolves to the point's own position (spec §4.1: "if a handle is colocated with
its owning point, the effective control point equals that endpoint"). -/
def Vector.from_handle (point : Point) (wh : WhichHandle) : Vector :=
  match wh with
  | WhichHandle.A =>
    match point.a with
    | Handle.At hx hy => { x := hx, y := hy }
    | Handle.Colocated => { x := point.x, y := point.y }
  | WhichHandle.B =>
    match point.b with
    | Handle.At hx hy => { x := hx, y := hy }
    | Handle.Colocated => { x := point.x, y := point.y }

/-- Modelled from the spec: `Vector::to_handle` of the external vector module
turns a vector into an absolute handle position. -/
def Vector.to_handle (v : Vector) : Handle :=
  Handle.At v.x v.y

/-- Modelled from the spec: `Vector::to_point` of the external vector module
creates an outline point at the vector's position with the given outgoing (`a`)
and incoming (`b`) handles; the sources provided do not pin the point-type tag,
modelled as the curve-continuation tag. -/
def Vector.to_point (v : Vector) (a b : Handle) : Point :=
  { x := v.x, y := v.y, a := a, b := b, ptype := PointType.Curve }

/-- A single cubic Bézier segment: the eight polynomial coefficients
`x(t) = A t³ + B t² + C t + D`, `y(t) = E t³ + F t² + G t + H` together with
the four original control points (src/MFEKmath/bezier/mod.rs lines 8-14). -/
structure Bezier where
  A : ℚ
  B : ℚ
  C : ℚ
  D : ℚ
  E : ℚ
  F : ℚ
  G : ℚ
  H : ℚ
  control_points : Fin 4 → Vector

/-- Embeds `Bezier::from_points` (src/MFEKmath/bezier/mod.rs lines 28-47): stores the
control points and computes the eight coefficients by the fixed algebraic
expansion. -/
def Bezier.from_points (p0 p1 p2 p3 : Vector) : Bezier :=
  { A := p3.x - 3 * p2.x + 3 * p1.x - p0.x
    B := 3 * p2.x - 6 * p1.x + 3 * p0.x
    C := 3 * p1.x - 3 * p0.x
    D := p0.x
    E := p3.y - 3 * p2.y + 3 * p1.y - p0.y
    F := 3 * p2.y - 6 * p1.y + 3 * p0.y
    G := 3 * p1.y - 3 * p0.y
    H := p0.y
    control_points := ![p0, p1, p2, p3] }

/-- Embeds `Bezier::from` (src/MFEKmath/bezier/mod.rs lines 18-26): builds the segment
between two consecutive outline points, using the first point's outgoing handle
and the second point's incoming handle as interior control points. -/
def Bezier.from_pair (point next_point : Point) : Bezier :=
  Bezier.from_points (Vector.from_point point)
    (Vector.from_handle point WhichHandle.A)
    (Vector.from_handle next_point WhichHandle.B)
    (Vector.from_point next_point)

/-- Modelled from the spec: `Bezier::from_control_points` is called by
`from_skpath` (src/qmath/piecewise.rs lines 113, 121, 130) but its body is not
among the provided sources; per spec §4.1/§4.4 it constructs the cubic from
four control points exactly like `from_points`. -/
def Bezier.from_control_points (p0 p1 p2 p3 : Vector) : Bezier :=
  Bezier.from_points p0 p1 p2 p3

/-- Embeds `Bezier::to_control_points` (src/MFEKmath/bezier/mod.rs lines 49-59):
reconstructs the four control points from the coefficients. -/
def Bezier.to_control_points (bez : Bezier) : Fin 4 → Vector :=
  ![{ x := bez.D, y := bez.H },
    { x := bez.D + bez.C / 3, y := bez.H + bez.G / 3 },
    { x := bez.D + 2 * bez.C / 3 + bez.B / 3, y := bez.H + 2 * bez.G / 3 + bez.F / 3 },
    { x := bez.D + bez.C + bez.B + bez.A, y := bez.H + bez.G + bez.F + bez.E }]

/-- Modelled from the spec: the `Evaluate` implementation for `Bezier` lives in
a module not among the provided sources; per spec §3 and §4.1 evaluation is
against the polynomial form `x(t) = A t³ + B t² + C t + D`,
`y(t) = E t³ + F t² + G t + H`. -/
def Bezier.evaluate (bez : Bezier) (t : ℚ) : Vector :=
  { x := bez.A * t ^ 3 + bez.B * t ^ 2 + bez.C * t + bez.D
    y := bez.E * t ^ 3 + bez.F * t ^ 2 + bez.G * t + bez.H }

/-- The `Evaluate` trait (the shared capability of spec §4.2), restricted to
the operations the claims exercise; `apply_transform` is not needed by any
claim and is omitted. -/
class Evaluate (T : Type) where
  evaluate : T → ℚ → Vector
  derivative : T → ℚ → Vector
  bounds : T → Rect

/-- Embeds `Piecewise<T>` (src/qmath/piecewise.rs lines 12-15): an ordered sequence of
evaluable segments addressed by one normalized parameter. -/
structure Piecewise (T : Type) where
  curves : List T

/-- Embeds `Piecewise::evaluate` (src/qmath/piecewise.rs lines 19-33). The Rust code
panics on an empty sequence (`none` here); otherwise it computes
`modified_time = len * t`, `curve_index = floor(modified_time).min(len-1) as
usize` (the float-to-usize cast saturates, hence `Int.toNat`), and delegates to
the indexed curve at `offset_time = modified_time - curve_index`. Out-of-range
indexing (a Rust panic) is mapped through `Option`. -/
def Piecewise.evaluate {T : Type} [Evaluate T] (pw : Piecewise T) (t : ℚ) : Option Vector :=
  if pw.curves.length = 0 then none
  else
    let modified_time : ℚ := (pw.curves.length : ℚ) * t
    let curve_index : ℕ := (min ⌊modified_time⌋ ((pw.curves.length : ℤ) - 1)).toNat
    let offset_time : ℚ := modified_time - (curve_index : ℚ)
    (pw.curves[curve_index]?).map (fun dir => Evaluate.evaluate dir offset_time)

/-- Embeds `Piecewise::derivative` (src/qmath/piecewise.rs lines 36-50): identical
index arithmetic to `evaluate`, delegating to the segment's derivative. -/
def Piecewise.derivative {T : Type} [Evaluate T] (pw : Piecewise T) (t : ℚ) : Option Vector :=
  if pw.curves.length = 0 then none
  else
    let modified_time : ℚ := (pw.curves.length : ℚ) * t
    let curve_index : ℕ := (min ⌊modified_time⌋ ((pw.curves.length : ℤ) - 1)).toNat
    let offset_time : ℚ := modified_time - (curve_index : ℚ)
    (pw.curves[curve_index]?).map (fun dir => Evaluate.derivative dir offset_time)

/-- Embeds `Piecewise::bounds` (src/qmath/piecewise.rs lines 52-68): panics on an
empty sequence (`none` here); otherwise folds `encapsulate_rect` over every
segment's bounds. The Rust seed is the inverted rectangle with infinite sides,
not representable in `ℚ`; since encapsulating any rectangle into that seed
yields that rectangle, the seed is modelled by a `none` accumulator that the
first segment's bounds replace. -/
def Piecewise.bounds {T : Type} [Evaluate T] (pw : Piecewise T) : Option Rect :=
  if pw.curves.length = 0 then none
  else
    pw.curves.foldl
      (fun acc curve =>
        match acc with
        | none => some (Evaluate.bounds curve)
        | some r => some (r.encapsulate_rect (Evaluate.bounds curve)))
      none

/-- A constant curve: the trivial `Evaluate` instance on `Vector`, used to
instantiate the generic `Piecewise` theorems on concrete inputs. -/
instance : Evaluate Vector where
  evaluate v _ := v
  derivative _ _ := { x := 0, y := 0 }
  bounds v := { left := v.x, bottom := v.y, right := v.x, top := v.y }

/-- Round-trip of the coefficient form: `to_control_points` inverts
`from_points` exactly over exact arithmetic. -/
lemma to_control_points_from_points (p0 p1 p2 p3 : Vector) :
    (Bezier.from_points p0 p1 p2 p3).to_control_points = ![p0, p1, p2, p3] := by
  funext i
  fin_cases i <;>
    simp [Bezier.from_points, Bezier.to_control_points] <;>
    exact Vector.ext (by ring) (by ring)

/-- C1: for every four control points `P0 P1 P2 P3`, constructing a `Bezier`
with `from_points` and reading back `to_control_points` returns exactly
`[P0, P1, P2, P3]` (round-trip identity, exact over exact arithmetic). -/
theorem bezier_from_points_to_control_points_round_trip (p0 p1 p2 p3 : Vector) :
    (Bezier.from_points p0 p1 p2 p3).to_control_points = ![p0, p1, p2, p3] :=
  to_control_points_from_points p0 p1 p2 p3

/-- Index arithmetic of the `Piecewise` time remapping: for a nonnegative
parameter the saturating cast agrees with the natural-number clamp, and the
clamped index is always in range. -/
lemma piecewise_index_eq (n : ℕ) (hn : 0 < n) (t : ℚ) (ht : 0 ≤ t) :
    (min ⌊(n : ℚ) * t⌋ ((n : ℤ) - 1)).toNat = min (⌊(n : ℚ) * t⌋.toNat) (n - 1) ∧
      min (⌊(n : ℚ) * t⌋.toNat) (n - 1) < n := by
  have h0 : (0 : ℤ) ≤ ⌊(n : ℚ) * t⌋ := Int.floor_nonneg.mpr (by positivity)
  omega

/-- At `t = 1` the clamped index is the last one and the local parameter is
exactly `1`. -/
lemma piecewise_index_one (n : ℕ) (hn : 0 < n) :
    (min ⌊(n : ℚ) * 1⌋ ((n : ℤ) - 1)).toNat = n - 1 ∧
      (n : ℚ) * 1 - ((n - 1 : ℕ) : ℚ) = 1 := by
  constructor
  · rw [mul_one, Int.floor_natCast]
    omega
  · have : ((n - 1 : ℕ) : ℚ) = (n : ℚ) - 1 := by
      push_cast [Nat.cast_sub hn]
      ring
    rw [this]
    ring

/-- C2: for every `Piecewise` with nonempty `curves` of length `n` and every
parameter `t ≥ 0`, both `evaluate t` and `derivative t` compute `m = n * t`,
`index = min (floor m) (n - 1)`, `local_t = m - index` and delegate to
`curves[index]`; the index is always in range, and at `t = 1` both delegate to
the last segment at local parameter `1`. -/
theorem piecewise_evaluate_derivative_delegation {T : Type} [Evaluate T]
    (pw : Piecewise T) (t : ℚ) (hne : pw.curves ≠ []) (ht : 0 ≤ t) :
    ∃ hidx : min (⌊(pw.curves.length : ℚ) * t⌋.toNat) (pw.curves.length - 1) < pw.curves.length,
      pw.evaluate t = some (Evaluate.evaluate
          (pw.curves.get ⟨min (⌊(pw.curves.length : ℚ) * t⌋.toNat) (pw.curves.length - 1), hidx⟩)
          ((pw.curves.length : ℚ) * t
            - ((min (⌊(pw.curves.length : ℚ) * t⌋.toNat) (pw.curves.length - 1) : ℕ) : ℚ))) ∧
      pw.derivative t = some (Evaluate.derivative
          (pw.curves.get ⟨min (⌊(pw.curves.length : ℚ) * t⌋.toNat) (pw.curves.length - 1), hidx⟩)
          ((pw.curves.length : ℚ) * t
            - ((min (⌊(pw.curves.length : ℚ) * t⌋.toNat) (pw.curves.length - 1) : ℕ) : ℚ))) ∧
      pw.evaluate 1 = some (Evaluate.evaluate (pw.curves.getLast hne) 1) ∧
      pw.derivative 1 = some (Evaluate.derivative (pw.curves.getLast hne) 1) := by
  have hn : 0 < pw.curves.length := List.length_pos.mpr hne
  have hn0 : pw.curves.length ≠ 0 := Nat.pos_iff_ne_zero.mp hn
  obtain ⟨hcast, hidx⟩ := piecewise_index_eq pw.curves.length hn t ht
  obtain ⟨hcast1, hoff1⟩ := piecewise_index_one pw.curves.length hn
  have hidx1 : pw.curves.length - 1 < pw.curves.length := by omega
  refine ⟨hidx, ?_, ?_, ?_, ?_⟩
  · simp only [Piecewise.evaluate, if_neg hn0, hcast,
      List.getElem?_eq_getElem hidx, Option.map_some', List.get_eq_getElem]
  · simp only [Piecewise.derivative, if_neg hn0, hcast,
      List.getElem?_eq_getElem hidx, Option.map_some', List.get_eq_getElem]
  · simp only [Piecewise.evaluate, if_neg hn0, hcast1, hoff1,
      List.getElem?_eq_getElem hidx1, Option.map_some',
      List.getLast_eq_getElem]
  · simp only [Piecewise.derivative, if_neg hn0, hcast1, hoff1,
      List.getElem?_eq_getElem hidx1, Option.map_some',
      List.getLast_eq_getElem]

/-- C2 witness: the delegation theorem applied to a concrete two-segment
piecewise of constant curves at `t = 3/4`. -/
theorem piecewise_evaluate_derivative_delegation_witness :
    ∃ hidx : min (⌊((Piecewise.mk [Vector.mk 1 2, Vector.mk 3 4]).curves.length : ℚ)
        * (3 / 4)⌋.toNat)
        ((Piecewise.mk [Vector.mk 1 2, Vector.mk 3 4]).curves.length - 1)
        < (Piecewise.mk [Vector.mk 1 2, Vector.mk 3 4]).curves.length,
      (Piecewise.mk [Vector.mk 1 2, Vector.mk 3 4]).evaluate (3 / 4)
        = some (Evaluate.evaluate
          ((Piecewise.mk [Vector.mk 1 2, Vector.mk 3 4]).curves.get
            ⟨min (⌊((Piecewise.mk [Vector.mk 1 2, Vector.mk 3 4]).curves.length : ℚ)
                * (3 / 4)⌋.toNat)
              ((Piecewise.mk [Vector.mk 1 2, Vector.mk 3 4]).curves.length - 1), hidx⟩)
          (((Piecewise.mk [Vector.mk 1 2, Vector.mk 3 4]).curves.length : ℚ) * (3 / 4)
            - ((min (⌊((Piecewise.mk [Vector.mk 1 2, Vector.mk 3 4]).curves.length : ℚ)
                * (3 / 4)⌋.toNat)
              ((Piecewise.mk [Vector.mk 1 2, Vector.mk 3 4]).curves.length - 1) : ℕ) : ℚ))) ∧
      (Piecewise.mk [Vector.mk 1 2, Vector.mk 3 4]).derivative (3 / 4)
        = some (Evaluate.derivative
          ((Piecewise.mk [Vector.mk 1 2, Vector.mk 3 4]).curves.get
            ⟨min (⌊((Piecewise.mk [Vector.mk 1 2, Vector.mk 3 4]).curves.length : ℚ)
                * (3 / 4)⌋.toNat)
              ((Piecewise.mk [Vector.mk 1 2, Vector.mk 3 4]).curves.length - 1), hidx⟩)
          (((Piecewise.mk [Vector.mk 1 2, Vector.mk 3 4]).curves.length : ℚ) * (3 / 4)
            - ((min (⌊((Piecewise.mk [Vector.mk 1 2, Vector.mk 3 4]).curves.length : ℚ)
                * (3 / 4)⌋.toNat)
              ((Piecewise.mk [Vector.mk 1 2, Vector.mk 3 4]).curves.length - 1) : ℕ) : ℚ))) ∧
      (Piecewise.mk [Vector.mk 1 2, Vector.mk 3 4]).evaluate 1
        = some (Evaluate.evaluate
            ((Piecewise.mk [Vector.mk 1 2, Vector.mk 3 4]).curves.getLast (by simp)) 1) ∧
      (Piecewise.mk [Vector.mk 1 2, Vector.mk 3 4]).derivative 1
        = some (Evaluate.derivative
            ((Piecewise.mk [Vector.mk 1 2, Vector.mk 3 4]).curves.getLast (by simp)) 1) :=
  piecewise_evaluate_derivative_delegation (Piecewise.mk [Vector.mk 1 2, Vector.mk 3 4])
    (3 / 4) (by simp) (by norm_num)

/-- C3: every operation of a zero-segment `Piecewise` fails: `evaluate`,
`derivative` and `bounds` all return `none` (the Rust code panics), never a
default value. -/
theorem empty_piecewise_operations_fail {T : Type} [Evaluate T]
    (pw : Piecewise T) (h : pw.curves = []) (t : ℚ) :
    pw.evaluate t = none ∧ pw.derivative t = none ∧ pw.bounds = none := by
  have h0 : pw.curves.length = 0 := by rw [h]; rfl
  refine ⟨?_, ?_, ?_⟩ <;>
    simp only [Piecewise.evaluate, Piecewise.derivative, Piecewise.bounds, if_pos h0]

/-- C3 witness: the empty-piecewise theorem applied to the concrete empty
piecewise of constant curves at `t = 0`. -/
theorem empty_piecewise_operations_fail_witness :
    (Piecewise.mk ([] : List Vector)).evaluate 0 = none ∧
      (Piecewise.mk ([] : List Vector)).derivative 0 = none ∧
      (Piecewise.mk ([] : List Vector)).bounds = none :=
  empty_piecewise_operations_fail (Piecewise.mk ([] : List Vector)) rfl 0

/-- One verb of the incoming skia drawing-path iterator, modelled at the
interface boundary with the point group each verb carries (spec §3, §6): the
group includes the segment's start point, as the source's Line branch
(`vp[0]` is the start) and Cubic branch (`vp[0..3]` are all four control
points) confirm. So `move` carries 1 point, `line` 2 points (start, end),
`quad` 3 points (start, quad handle, end), `cubic` 4 points, `close` none.
Verbs outside these five are a fatal error in the source and are outside the
modelled format. -/
inductive SkVerb where
  | move (p : Vector)
  | line (p0 p1 : Vector)
  | quad (p0 p1 p2 : Vector)
  | cubic (p0 p1 p2 p3 : Vector)
  | close

/-- One step of the `Piecewise::<Piecewise<Bezier>>::from_skpath` loop
(src/qmath/piecewise.rs lines 99-144), acting on the state
`(contours, cur_contour, last_point)`. Each branch reads exactly the `vp`
slots the source reads; in particular the Quad branch (lines 117-123) reads
`lp = last_point`, `h2 = vp[0]`, `np = vp[1]` — the first two slots of the
3-point group, i.e. the quad's start and its handle — pushing
`from_control_points(lp, lp, vp[0], vp[1])` and leaving `vp[2]` (the quad's
end point) unread. -/
def from_skpath_step (st : List (Piecewise Bezier) × List Bezier × Vector) (v : SkVerb) :
    List (Piecewise Bezier) × List Bezier × Vector :=
  match v with
  | SkVerb.move p =>
    ((match st.2.1 with
      | [] => st.1
      | _ :: _ => st.1 ++ [Piecewise.mk st.2.1]), [], p)
  | SkVerb.line lp np =>
    (st.1, st.2.1 ++ [Bezier.from_control_points lp lp np np], np)
  | SkVerb.quad p0 p1 _ =>
    (st.1, st.2.1 ++ [Bezier.from_control_points st.2.2 st.2.2 p0 p1], p1)
  | SkVerb.cubic lp h1 h2 np =>
    (st.1, st.2.1 ++ [Bezier.from_control_points lp h1 h2 np], np)
  | SkVerb.close =>
    (st.1 ++ [Piecewise.mk st.2.1], [], st.2.2)

/-- Embeds `Piecewise::<Piecewise<Bezier>>::from_skpath` (src/qmath/piecewise.rs
lines 93-153): folds the verb stream from the empty state (the initial
`last_point` is `(0, 0)`), then flushes a nonempty trailing contour. -/
def Piecewise.from_skpath (ipath : List SkVerb) : Piecewise (Piecewise Bezier) :=
  let st := ipath.foldl from_skpath_step ([], [], Vector.mk 0 0)
  Piecewise.mk
    (match st.2.1 with
     | [] => st.1
     | _ :: _ => st.1 ++ [Piecewise.mk st.2.1])

/-- C4 counterexample: for the drawing path `[Move (0,0), Quad]` whose quad
group is `(S, Q, E) = ((0,0), (3,0), (6,0))` (start, quad handle, end), the
Quad branch pushes the cubic with control points `(S, S, S, Q) =
((0,0), (0,0), (0,0), (3,0))`: its interior control points are `(0,0)` and
`(0,0)`, not the standard elevation values `S + 2/3 * (Q - S) = (2,0)` and
`E + 2/3 * (Q - E) = (4,0)`. -/
theorem from_skpath_quad_not_standard_elevation :
    (Piecewise.from_skpath
        [SkVerb.move (Vector.mk 0 0),
          SkVerb.quad (Vector.mk 0 0) (Vector.mk 3 0) (Vector.mk 6 0)]).curves
      = [Piecewise.mk [Bezier.from_control_points (Vector.mk 0 0) (Vector.mk 0 0)
          (Vector.mk 0 0) (Vector.mk 3 0)]] ∧
    ¬ ((Bezier.from_control_points (Vector.mk 0 0) (Vector.mk 0 0)
          (Vector.mk 0 0) (Vector.mk 3 0)).to_control_points 1 = Vector.mk 2 0 ∧
        (Bezier.from_control_points (Vector.mk 0 0) (Vector.mk 0 0)
          (Vector.mk 0 0) (Vector.mk 3 0)).to_control_points 2 = Vector.mk 4 0) := by
  constructor
  · rfl
  · intro h
    have hx := congrArg Vector.x h.1
    simp [Bezier.from_control_points, Bezier.from_points, Bezier.to_control_points] at hx

/-- C4 amended: for every Quad verb carrying the 3-point group `(S, Q, E)`
(start, quad handle, end) reached with `last_point = S`, the Quad branch of
`from_skpath` pushes the cubic built from the control points `(S, S, S, Q)`:
it reads only the group's first two slots — the start `S` as though it were
the handle and the handle `Q` as though it were the endpoint — the end point
`E` is never read and no quadratic-to-cubic elevation is performed. -/
theorem from_skpath_quad_control_points (S Q E : Vector) :
    (Piecewise.from_skpath [SkVerb.move S, SkVerb.quad S Q E]).curves
      = [Piecewise.mk [Bezier.from_control_points S S S Q]] ∧
    (Bezier.from_control_points S S S Q).to_control_points = ![S, S, S, Q] :=
  ⟨rfl, to_control_points_from_points S S S Q⟩

/-- C5 counterexample: the Line branch of `from_skpath` on the segment from
`S = (0,0)` to `E = (1,0)` pushes the cubic with control points `(S, S, E, E)`,
and that cubic evaluated at `t = 1/4 ∈ [0,1]` gives `(5/32, 0)`, not the linear
interpolation `S + t * (E - S) = (1/4, 0)`. -/
theorem line_elevation_not_linear_at_quarter :
    (Piecewise.from_skpath
        [SkVerb.move (Vector.mk 0 0), SkVerb.line (Vector.mk 0 0) (Vector.mk 1 0)]).curves
      = [Piecewise.mk [Bezier.from_control_points (Vector.mk 0 0) (Vector.mk 0 0)
          (Vector.mk 1 0) (Vector.mk 1 0)]] ∧
    (Bezier.from_control_points (Vector.mk 0 0) (Vector.mk 0 0)
        (Vector.mk 1 0) (Vector.mk 1 0)).evaluate (1 / 4) = Vector.mk (5 / 32) 0 ∧
    ¬ (Bezier.from_control_points (Vector.mk 0 0) (Vector.mk 0 0)
        (Vector.mk 1 0) (Vector.mk 1 0)).evaluate (1 / 4) = Vector.mk (1 / 4) 0 := by
  refine ⟨rfl, ?_, ?_⟩
  · simp only [Bezier.from_control_points, Bezier.from_points, Bezier.evaluate]
    exact Vector.ext (by norm_num) (by norm_num)
  · intro h
    have hx := congrArg Vector.x h
    simp only [Bezier.from_control_points, Bezier.from_points, Bezier.evaluate] at hx
    norm_num at hx

/-- C5 amended: the cubic produced by the line degree-elevation (interior
control points equal to the endpoints, as in `from_skpath`'s Line branch)
evaluates to `S + (3t² - 2t³) * (E - S)`: it starts at `S`, ends at `E`, and
traces the segment, but its parameterization is not the linear interpolation
`S + t * (E - S)` (they agree only at `t = 0, 1/2, 1`). -/
theorem line_elevation_evaluate (S E : Vector) (t : ℚ) :
    (Bezier.from_control_points S S E E).evaluate t
      = Vector.mk (S.x + (3 * t ^ 2 - 2 * t ^ 3) * (E.x - S.x))
          (S.y + (3 * t ^ 2 - 2 * t ^ 3) * (E.y - S.y)) := by
  simp only [Bezier.from_control_points, Bezier.from_points, Bezier.evaluate]
  exact Vector.ext (by ring) (by ring)

/-- C10: there is a drawing path on which `from_skpath` returns an outline
containing a contour with zero segments: the Close branch pushes the current
contour unconditionally, so a lone `Close` verb yields one empty contour. -/
theorem from_skpath_can_produce_empty_contour :
    ∃ ipath : List SkVerb, ∃ ctr ∈ (Piecewise.from_skpath ipath).curves, ctr.curves = [] := by
  refine ⟨[SkVerb.close], Piecewise.mk [], ?_, rfl⟩
  show Piecewise.mk [] ∈ (Piecewise.from_skpath [SkVerb.close]).curves
  simp [Piecewise.from_skpath, from_skpath_step, List.foldl]

/-- Embeds `Piecewise::<Bezier>::from_contour` (src/qmath/piecewise.rs lines
204-231): one segment per consecutive point pair (the loop over `(lastpoint,
point)` pairs is the zip of the contour with its tail), then — unless the first
point carries the `Move` tag — a synthetic closing segment from the last point
back to the first. `contour.first().unwrap()` panics on an empty contour
(`none` here). -/
def Piecewise.from_contour (contour : List Point) : Option (Piecewise Bezier) :=
  match contour with
  | [] => none
  | firstpoint :: rest =>
    let segs := ((firstpoint :: rest).zip rest).map (fun pq => Bezier.from_pair pq.1 pq.2)
    if firstpoint.ptype ≠ PointType.Move then
      some (Piecewise.mk (segs ++
        [Bezier.from_pair ((firstpoint :: rest).getLast (List.cons_ne_nil firstpoint rest))
          firstpoint]))
    else
      some (Piecewise.mk segs)

/-- C6: a contour with `k ≥ 2` points yields exactly `k - 1` segments when its
first point is a `Move` point, and exactly `k` segments (the pairwise ones plus
the synthetic closing segment) otherwise. -/
theorem from_contour_segment_count (firstpoint : Point) (rest : List Point) (h : rest ≠ []) :
    ∃ pw : Piecewise Bezier,
      Piecewise.from_contour (firstpoint :: rest) = some pw ∧
        pw.curves.length =
          (if firstpoint.ptype = PointType.Move
           then (firstpoint :: rest).length - 1
           else (firstpoint :: rest).length) := by
  have hzip : (((firstpoint :: rest).zip rest).map
      (fun pq => Bezier.from_pair pq.1 pq.2)).length = rest.length := by
    simp [List.length_zip]
  by_cases hm : firstpoint.ptype = PointType.Move
  · refine ⟨Piecewise.mk (((firstpoint :: rest).zip rest).map
        (fun pq => Bezier.from_pair pq.1 pq.2)), ?_, ?_⟩
    · simp only [Piecewise.from_contour, hm, ne_eq, not_true_eq_false, if_false]
    · simp [hzip, hm]
  · refine ⟨Piecewise.mk ((((firstpoint :: rest).zip rest).map
        (fun pq => Bezier.from_pair pq.1 pq.2)) ++
        [Bezier.from_pair ((firstpoint :: rest).getLast (List.cons_ne_nil firstpoint rest))
          firstpoint]), ?_, ?_⟩
    · simp only [Piecewise.from_contour, ne_eq, hm, not_false_eq_true, if_true]
    · simp [hzip, hm]

/-- C6 witness: the segment-count theorem applied to a concrete 2-point
contour whose first point is not a `Move` point. -/
theorem from_contour_segment_count_witness :
    ∃ pw : Piecewise Bezier,
      Piecewise.from_contour
          [Point.mk 0 0 Handle.Colocated Handle.Colocated PointType.Curve,
            Point.mk 1 0 Handle.Colocated Handle.Colocated PointType.Curve]
        = some pw ∧
        pw.curves.length =
          (if (Point.mk 0 0 Handle.Colocated Handle.Colocated PointType.Curve).ptype
              = PointType.Move
           then ([Point.mk 0 0 Handle.Colocated Handle.Colocated PointType.Curve,
               Point.mk 1 0 Handle.Colocated Handle.Colocated PointType.Curve] : List Point).length
              - 1
           else ([Point.mk 0 0 Handle.Colocated Handle.Colocated PointType.Curve,
               Point.mk 1 0 Handle.Colocated Handle.Colocated PointType.Curve] : List Point).length) :=
  from_contour_segment_count
    (Point.mk 0 0 Handle.Colocated Handle.Colocated PointType.Curve)
    [Point.mk 1 0 Handle.Colocated Handle.Colocated PointType.Curve]
    (List.cons_ne_nil _ _)

/-- C7 counterexample: a one-point contour (`k = 1 < 2`) does not make
`from_contour` fail: it returns a `Piecewise` (here with one degenerate
closing segment, since the point is not a `Move` point). -/
theorem from_contour_singleton_returns :
    (Piecewise.from_contour
        [Point.mk 0 0 Handle.Colocated Handle.Colocated PointType.Curve]).isSome = true := by
  rfl

/-- C7 amended: `from_contour` fails exactly on the empty contour (`k = 0`);
every nonempty contour — including the single-point case `k = 1` — returns a
`Piecewise`. -/
theorem from_contour_none_iff (contour : List Point) :
    Piecewise.from_contour contour = none ↔ contour = [] := by
  cases contour with
  | nil => simp [Piecewise.from_contour]
  | cons p rest =>
    constructor
    · intro hnone
      exfalso
      by_cases hm : p.ptype = PointType.Move
      · simp [Piecewise.from_contour, hm] at hnone
      · simp [Piecewise.from_contour, hm] at hnone
    · intro hc
      exact absurd hc (List.cons_ne_nil p rest)

/-- The loop of `Piecewise::<Bezier>::to_contour` (src/qmath/piecewise.rs
lines 238-257): each segment emits one point at its first control point with
the outgoing handle taken from its second control point; the incoming handle
starts `Colocated` and is back-filled from the previous segment's third control
point when there is a previous segment (`last_curve`). -/
def to_contour_loop : List Bezier → Option (Fin 4 → Vector) → List Point
  | [], _ => []
  | curve :: restCurves, last_curve =>
    let control_points := curve.to_control_points
    let new_point :=
      (control_points 0).to_point (Vector.to_handle (control_points 1)) Handle.Colocated
    let new_point :=
      match last_curve with
      | some lc => { new_point with b := Vector.to_handle (lc 2) }
      | none => new_point
    new_point :: to_contour_loop restCurves (some control_points)

/-- Embeds `Piecewise::<Bezier>::to_contour` (src/qmath/piecewise.rs lines 233-263):
runs the loop, then overwrites the first emitted point's incoming handle with
the last segment's third control point; the `unwrap`s panic on an empty
piecewise (`none` here). -/
def Piecewise.to_contour (pw : Piecewise Bezier) : Option (List Point) :=
  match pw.curves with
  | [] => none
  | c :: rest =>
    match to_contour_loop (c :: rest) none,
        ((c :: rest).getLast (List.cons_ne_nil c rest)).to_control_points with
    | [], _ => none
    | firstp :: more, lc => some ({ firstp with b := Vector.to_handle (lc 2) } :: more)

lemma to_contour_loop_length (cs : List Bezier) (lc : Option (Fin 4 → Vector)) :
    (to_contour_loop cs lc).length = cs.length := by
  induction cs generalizing lc with
  | nil => rfl
  | cons c rest ih => simp [to_contour_loop, ih]

/-- Every point of the loop output after the first has its incoming handle
back-filled from the previous segment's third control point, whatever the
incoming `last_curve` state. -/
lemma to_contour_loop_b_succ (cs : List Bezier) (lc : Option (Fin 4 → Vector)) (i : ℕ)
    (hi : i + 1 < cs.length) :
    ((to_contour_loop cs lc).get
        ⟨i + 1, by rw [to_contour_loop_length]; exact hi⟩).b
      = Vector.to_handle ((cs.get ⟨i, Nat.lt_of_succ_lt hi⟩).to_control_points 2) := by
  induction cs generalizing lc i with
  | nil => exact absurd hi (by simp)
  | cons c rest ih =>
    cases i with
    | zero =>
      have hr : 0 < rest.length := by
        simpa using hi
      cases rest with
      | nil => exact absurd hr (by simp)
      | cons d rest2 =>
        cases lc <;>
          simp [to_contour_loop, Vector.to_point, List.get_eq_getElem]
    | succ j =>
      have hj : j + 1 < rest.length := by
        simpa using hi
      have := ih (some c.to_control_points) j hj
      cases lc <;>
        simpa [to_contour_loop, List.get_eq_getElem] using this

/-- C8: for every nonempty `Piecewise<Bezier>`, `to_contour` succeeds with one
point per segment; the first emitted point's incoming (`b`) handle is set from
the last segment's third control point (the wraparound closing the loop), and
every later point's incoming handle equals the previous segment's third
control point. -/
theorem to_contour_incoming_handles (pw : Piecewise Bezier) (h : pw.curves ≠ []) :
    ∃ c : List Point, pw.to_contour = some c ∧ c.length = pw.curves.length ∧
      (∃ hc : 0 < c.length,
        (c.get ⟨0, hc⟩).b
          = Vector.to_handle ((pw.curves.getLast h).to_control_points 2)) ∧
      ∀ (i : ℕ) (hi : i + 1 < c.length) (hw : i < pw.curves.length),
        (c.get ⟨i + 1, hi⟩).b
          = Vector.to_handle ((pw.curves.get ⟨i, hw⟩).to_control_points 2) := by
  obtain ⟨curves⟩ := pw
  cases curves with
  | nil => exact absurd rfl h
  | cons c rest =>
    refine ⟨{ (c.to_control_points 0).to_point (Vector.to_handle (c.to_control_points 1))
          Handle.Colocated with
        b := Vector.to_handle
          ((((c :: rest).getLast (List.cons_ne_nil c rest)).to_control_points) 2) }
        :: to_contour_loop rest (some c.to_control_points), ?_, ?_, ?_, ?_⟩
    · rfl
    · simp [to_contour_loop_length]
    · exact ⟨by simp, rfl⟩
    · intro i hi hw
      have hi' : i < (to_contour_loop rest (some c.to_control_points)).length := by
        simpa using hi
      have hir : i < rest.length + 1 := by
        rw [to_contour_loop_length] at hi'
        omega
      cases i with
      | zero =>
        cases rest with
        | nil =>
          rw [to_contour_loop_length] at hi'
          exact absurd hi' (by simp)
        | cons d rest2 =>
          simp [to_contour_loop, Vector.to_point, List.get_eq_getElem]
      | succ j =>
        have hj : j + 1 < rest.length := by
          rw [to_contour_loop_length] at hi'
          omega
        have := to_contour_loop_b_succ rest (some c.to_control_points) j hj
        simpa [List.get_eq_getElem] using this

/-- C8 witness: the incoming-handle theorem applied to a concrete two-segment
piecewise. -/
theorem to_contour_incoming_handles_witness :
    ∃ c : List Point,
      (Piecewise.mk [Bezier.from_points (Vector.mk 0 0) (Vector.mk 1 0) (Vector.mk 2 0)
          (Vector.mk 3 0),
        Bezier.from_points (Vector.mk 3 0) (Vector.mk 4 0) (Vector.mk 5 0)
          (Vector.mk 0 0)]).to_contour = some c ∧
      c.length = (Piecewise.mk [Bezier.from_points (Vector.mk 0 0) (Vector.mk 1 0)
          (Vector.mk 2 0) (Vector.mk 3 0),
        Bezier.from_points (Vector.mk 3 0) (Vector.mk 4 0) (Vector.mk 5 0)
          (Vector.mk 0 0)]).curves.length ∧
      (∃ hc : 0 < c.length,
        (c.get ⟨0, hc⟩).b
          = Vector.to_handle (((Piecewise.mk [Bezier.from_points (Vector.mk 0 0)
              (Vector.mk 1 0) (Vector.mk 2 0) (Vector.mk 3 0),
            Bezier.from_points (Vector.mk 3 0) (Vector.mk 4 0) (Vector.mk 5 0)
              (Vector.mk 0 0)]).curves.getLast (by simp)).to_control_points 2)) ∧
      ∀ (i : ℕ) (hi : i + 1 < c.length)
          (hw : i < (Piecewise.mk [Bezier.from_points (Vector.mk 0 0) (Vector.mk 1 0)
              (Vector.mk 2 0) (Vector.mk 3 0),
            Bezier.from_points (Vector.mk 3 0) (Vector.mk 4 0) (Vector.mk 5 0)
              (Vector.mk 0 0)]).curves.length),
        (c.get ⟨i + 1, hi⟩).b
          = Vector.to_handle (((Piecewise.mk [Bezier.from_points (Vector.mk 0 0)
              (Vector.mk 1 0) (Vector.mk 2 0) (Vector.mk 3 0),
            Bezier.from_points (Vector.mk 3 0) (Vector.mk 4 0) (Vector.mk 5 0)
              (Vector.mk 0 0)]).curves.get ⟨i, hw⟩).to_control_points 2) :=
  to_contour_incoming_handles
    (Piecewise.mk [Bezier.from_points (Vector.mk 0 0) (Vector.mk 1 0) (Vector.mk 2 0)
        (Vector.mk 3 0),
      Bezier.from_points (Vector.mk 3 0) (Vector.mk 4 0) (Vector.mk 5 0)
        (Vector.mk 0 0)])
    (by simp)

/-- One primitive appended to an outgoing skia path, modelled at the interface
boundary (spec §6): `move_to`, `line_to` and `cubic_to` record the points they
are called with. -/
inductive PathVerb where
  | moveTo (p : Vector)
  | lineTo (p : Vector)
  | cubicTo (p1 p2 p3 : Vector)
  deriving DecidableEq

/-- One iteration of the `Piecewise::<Bezier>::append_to_skpath` loop
(src/qmath/piecewise.rs lines 268-283), acting on the state `(skpath, first)`:
on the first iteration emit a `move_to` to `control_points[0]`; emit a
`line_to` to `control_points[3]` when `control_points[0] == control_points[2]`
and `control_points[1] == control_points[3]`; always emit a `cubic_to`. -/
def append_to_skpath_step (st : List PathVerb × Bool) (bez : Bezier) :
    List PathVerb × Bool :=
  let controlp := bez.to_control_points
  let st1 := if st.2 then (st.1 ++ [PathVerb.moveTo (controlp 0)], false) else st
  let st2 := if controlp 0 = controlp 2 ∧ controlp 1 = controlp 3
             then (st1.1 ++ [PathVerb.lineTo (controlp 3)], st1.2)
             else st1
  (st2.1 ++ [PathVerb.cubicTo (controlp 1) (controlp 2) (controlp 3)], st2.2)

/-- `Piecewise::<Bezier>::append_to_skpath` (src/qmath/piecewise.rs lines
266-286): folds the loop over the segments starting from the incoming path
with `first = true`. -/
def Piecewise.append_to_skpath (pw : Piecewise Bezier) (skpath : List PathVerb) :
    List PathVerb :=
  (pw.curves.foldl append_to_skpath_step (skpath, true)).1

/-- The primitives one segment contributes after the leading move: a `line_to`
exactly under the degeneracy test `cp0 = cp2 ∧ cp1 = cp3`, then always a
`cubic_to`. -/
def segment_emission (bez : Bezier) : List PathVerb :=
  (if bez.to_control_points 0 = bez.to_control_points 2 ∧
      bez.to_control_points 1 = bez.to_control_points 3
   then [PathVerb.lineTo (bez.to_control_points 3)]
   else [])
    ++ [PathVerb.cubicTo (bez.to_control_points 1) (bez.to_control_points 2)
        (bez.to_control_points 3)]

/-- After the first iteration the `first` flag stays `false` and each segment
appends exactly its `segment_emission`. -/
lemma append_to_skpath_foldl_notfirst (cs : List Bezier) (acc : List PathVerb) :
    cs.foldl append_to_skpath_step (acc, false)
      = (acc ++ cs.flatMap segment_emission, false) := by
  induction cs generalizing acc with
  | nil => simp
  | cons c rest ih =>
    rw [List.foldl_cons]
    have hstep : append_to_skpath_step (acc, false) c = (acc ++ segment_emission c, false) := by
      by_cases hdeg : c.to_control_points 0 = c.to_control_points 2 ∧
          c.to_control_points 1 = c.to_control_points 3
      · simp [append_to_skpath_step, segment_emission, hdeg]
      · simp [append_to_skpath_step, segment_emission, hdeg]
    rw [hstep, ih]
    simp

/-- C9: on a nonempty `Piecewise<Bezier>`, `append_to_skpath` appends exactly
one `move_to` (to the first segment's first control point) and then, for every
segment in order, a `cubic_to` unconditionally, preceded by a `line_to` exactly
when the segment's control points satisfy `cp0 = cp2 ∧ cp1 = cp3` (the line
emission does not suppress the cubic emission). -/
theorem append_to_skpath_emission (pw : Piecewise Bezier) (skpath : List PathVerb)
    (c : Bezier) (rest : List Bezier) (h : pw.curves = c :: rest) :
    pw.append_to_skpath skpath
      = skpath ++ PathVerb.moveTo (c.to_control_points 0)
          :: (c :: rest).flatMap segment_emission := by
  have hstep : append_to_skpath_step (skpath, true) c
      = (skpath ++ PathVerb.moveTo (c.to_control_points 0) :: segment_emission c, false) := by
    by_cases hdeg : c.to_control_points 0 = c.to_control_points 2 ∧
        c.to_control_points 1 = c.to_control_points 3
    · simp [append_to_skpath_step, segment_emission, hdeg]
    · simp [append_to_skpath_step, segment_emission, hdeg]
  rw [Piecewise.append_to_skpath, h, List.foldl_cons, hstep,
    append_to_skpath_foldl_notfirst]
  simp

/-- C9 witness: the emission theorem applied to a concrete two-segment
piecewise whose first segment satisfies the degeneracy test and whose second
does not, appended to the empty path. -/
theorem append_to_skpath_emission_witness :
    (Piecewise.mk [Bezier.from_points (Vector.mk 0 0) (Vector.mk 1 1) (Vector.mk 0 0)
        (Vector.mk 1 1),
      Bezier.from_points (Vector.mk 1 1) (Vector.mk 2 0) (Vector.mk 3 0)
        (Vector.mk 4 1)]).append_to_skpath []
      = [] ++ PathVerb.moveTo ((Bezier.from_points (Vector.mk 0 0) (Vector.mk 1 1)
            (Vector.mk 0 0) (Vector.mk 1 1)).to_control_points 0)
          :: ([Bezier.from_points (Vector.mk 0 0) (Vector.mk 1 1) (Vector.mk 0 0)
              (Vector.mk 1 1),
            Bezier.from_points (Vector.mk 1 1) (Vector.mk 2 0) (Vector.mk 3 0)
              (Vector.mk 4 1)]).flatMap segment_emission :=
  append_to_skpath_emission
    (Piecewise.mk [Bezier.from_points (Vector.mk 0 0) (Vector.mk 1 1) (Vector.mk 0 0)
        (Vector.mk 1 1),
      Bezier.from_points (Vector.mk 1 1) (Vector.mk 2 0) (Vector.mk 3 0)
        (Vector.mk 4 1)])
    []
    (Bezier.from_points (Vector.mk 0 0) (Vector.mk 1 1) (Vector.mk 0 0) (Vector.mk 1 1))
    [Bezier.from_points (Vector.mk 1 1) (Vector.mk 2 0) (Vector.mk 3 0) (Vector.mk 4 1)]
    rfl

end MFEKmath
